import Mathlib

/-!
Verification of the hypermind peer-counting overlay.

Shallow embedding of the relevant source files:
- `src/src/discovery/feistel.js` (Feistel IPv4 enumeration) in `Hypermind.Feistel`;
- `src/src/core/security.js` (`verifyPoW`) in `Hypermind.Security`;
- the monolithic `server.js` gossip handler (`handleMessage`, heartbeat tick,
  socket close, startup registration) in `Hypermind.Server`;
- the `PeerManager` (`cleanupStalePeers`) in `Hypermind.Peers`;
- the `SSEManager` (`broadcastUpdate`) in `Hypermind.SSE`;
- `src/src/p2p/relay.js` (`relayMessage` with diagnostics) in `Hypermind.Relay`.

JavaScript machine integers are modelled as `Nat` with explicit `% 2^32`
where 32-bit wrap-around matters; timestamps are `Int` (JS subtraction of
`Date.now()` values); cryptographic hashing (SHA-256 / HMAC / HKDF) is
implemented concretely so that proof-of-work and Feistel key derivation are
executable; Ed25519 signature verification and SPKI key construction are
host primitives of Node's `crypto` and are abstracted as an oracle.
-/

namespace Hypermind

/-- Right rotation by `n` on naturals below `2^32`. -/
def rotr32 (x n : Nat) : Nat := ((x >>> n) ||| (x <<< (32 - n))) % 4294967296

/-- Left rotation by `n` on naturals below `2^32` (JS `(x << n | x >>> (32-n)) >>> 0`). -/
def rotl32 (x n : Nat) : Nat := ((x <<< n) % 4294967296) ||| (x >>> (32 - n))

/-- Big-endian byte rendering of `n`, fixed width `len` bytes. -/
def toBytesBE (len n : Nat) : List Nat :=
  match len with
  | 0 => []
  | l + 1 => toBytesBE l (n / 256) ++ [n % 256]

/-- Big-endian 32-bit word from the first four entries of a byte list
    (Node `Buffer.readUInt32BE`). -/
def wordBE (l : List Nat) : Nat :=
  ((l.getD 0 0) <<< 24) ||| ((l.getD 1 0) <<< 16) ||| ((l.getD 2 0) <<< 8) ||| (l.getD 3 0)

/-- SHA-256 round constants. -/
def sha256K : List Nat :=
  [1116352408, 1899447441, 3049323471, 3921009573, 961987163,
   1508970993, 2453635748, 2870763221, 3624381080, 310598401,
   607225278, 1426881987, 1925078388, 2162078206, 2614888103,
   3248222580, 3835390401, 4022224774, 264347078, 604807628,
   770255983, 1249150122, 1555081692, 1996064986, 2554220882,
   2821834349, 2952996808, 3210313671, 3336571891, 3584528711,
   113926993, 338241895, 666307205, 773529912, 1294757372,
   1396182291, 1695183700, 1986661051, 2177026350, 2456956037,
   2730485921, 2820302411, 3259730800, 3345764771, 3516065817,
   3600352804, 4094571909, 275423344, 430227734, 506948616,
   659060556, 883997877, 958139571, 1322822218, 1537002063,
   1747873779, 1955562222, 2024104815, 2227730452, 2361852424,
   2428436474, 2756734187, 3204031479, 3329325298]

/-- SHA-256 initial hash state. -/
def sha256H0 : List Nat :=
  [1779033703, 3144134277, 1013904242, 2773480762,
   1359893119, 2600822924, 528734635, 1541459225]

/-- One message-schedule extension step: append
    `w[i-16] + s0(w[i-15]) + w[i-7] + s1(w[i-2])` modulo `2^32`. -/
def schedStep (w : List Nat) : List Nat :=
  let i := w.length
  let w15 := w.getD (i - 15) 0
  let w2 := w.getD (i - 2) 0
  let s0 := (rotr32 w15 7) ^^^ (rotr32 w15 18) ^^^ (w15 >>> 3)
  let s1 := (rotr32 w2 17) ^^^ (rotr32 w2 19) ^^^ (w2 >>> 10)
  w ++ [(w.getD (i - 16) 0 + s0 + w.getD (i - 7) 0 + s1) % 4294967296]

/-- Iterate the schedule extension. -/
def schedExtend : Nat → List Nat → List Nat
  | 0, w => w
  | n + 1, w => schedExtend n (schedStep w)

/-- One SHA-256 compression round on the 8-word working state. -/
def round256 (st : List Nat) (kw : Nat × Nat) : List Nat :=
  let a := st.getD 0 0
  let b := st.getD 1 0
  let c := st.getD 2 0
  let d := st.getD 3 0
  let e := st.getD 4 0
  let f := st.getD 5 0
  let g := st.getD 6 0
  let h := st.getD 7 0
  let S1 := (rotr32 e 6) ^^^ (rotr32 e 11) ^^^ (rotr32 e 25)
  let ch := (e &&& f) ^^^ ((e ^^^ 4294967295) &&& g)
  let t1 := (h + S1 + ch + kw.1 + kw.2) % 4294967296
  let S0 := (rotr32 a 2) ^^^ (rotr32 a 13) ^^^ (rotr32 a 22)
  let mj := (a &&& b) ^^^ (a &&& c) ^^^ (b &&& c)
  let t2 := (S0 + mj) % 4294967296
  [(t1 + t2) % 4294967296, a, b, c, (d + t1) % 4294967296, e, f, g]

/-- Compress one 64-byte block into the running hash state. -/
def compress256 (h : List Nat) (block : List Nat) : List Nat :=
  let w16 := (List.range 16).map (fun i => wordBE (block.drop (4 * i)))
  let w := schedExtend 48 w16
  let st := (sha256K.zip w).foldl round256 h
  (h.zip st).map (fun p => (p.1 + p.2) % 4294967296)

/-- SHA-256 padding: `0x80`, zeros, 8-byte big-endian bit length. -/
def sha256Pad (msg : List Nat) : List Nat :=
  let l := msg.length
  msg ++ [128] ++ List.replicate ((120 - (l + 1) % 64) % 64) 0 ++ toBytesBE 8 (8 * l)

/-- Fold the compression function over the 64-byte blocks of a padded message
    (the fuel argument is an upper bound on the number of blocks). -/
def sha256Blocks : Nat → List Nat → List Nat → List Nat
  | 0, h, _ => h
  | fuel + 1, h, msg =>
    match msg with
    | [] => h
    | _ => sha256Blocks fuel (compress256 h (msg.take 64)) (msg.drop 64)

/-- SHA-256 of a byte list, as a list of 32 bytes. -/
def sha256 (msg : List Nat) : List Nat :=
  let padded := sha256Pad msg
  (sha256Blocks padded.length sha256H0 padded).flatMap (toBytesBE 4)

/-- Byte list of a string (all strings hashed by the system are ASCII). -/
def strBytes (s : String) : List Nat := s.data.map Char.toNat

/-- Lowercase hex digit. -/
def hexDigit (n : Nat) : Char := if n < 10 then Char.ofNat (48 + n) else Char.ofNat (87 + n)

/-- Lowercase hex rendering of a byte list (Node `digest("hex")`). -/
def hexOfBytes (l : List Nat) : String :=
  String.mk (l.flatMap (fun b => [hexDigit (b / 16), hexDigit (b % 16)]))

/-- HMAC-SHA-256. -/
def hmacSha256 (key msg : List Nat) : List Nat :=
  let k0 := if key.length > 64 then sha256 key else key
  let kp := k0 ++ List.replicate (64 - k0.length) 0
  let ipad := kp.map (fun b => b ^^^ 54)
  let opad := kp.map (fun b => b ^^^ 92)
  sha256 (opad ++ sha256 (ipad ++ msg))

/-- HKDF-SHA-256 with empty salt and 32-byte output, as computed by
    Node `crypto.hkdfSync("sha256", ikm, Buffer.alloc(0), info, 32)`
    (a single expand block `HMAC(PRK, info || 0x01)`). -/
def hkdfSha256_32 (ikm info : List Nat) : List Nat :=
  let prk := hmacSha256 [] ikm
  hmacSha256 prk (info ++ [1])

/-! ### Constants extracted from `src/config/constants.js` -/

namespace Constants

def POW_PREFIX : String := "0000"

def MAX_RELAY_HOPS : Nat := 2

def PEER_TIMEOUT : Int := 15000

def BROADCAST_THROTTLE : Int := 1000

end Constants

/-! ### `src/src/discovery/feistel.js` -/

namespace Feistel

/-- Node `key.readUInt32BE(off)`. -/
def readUInt32BE (key : List Nat) (off : Nat) : Nat := wordBE (key.drop off)

/-- Mixing function for Feistel rounds (`feistelMix`): XOR with `k0`,
    rotate left 7, XOR with `k1`, rotate left 13, all on 32 bits. -/
def feistelMix (x : Nat) (key : List Nat) : Nat :=
  let k0 := readUInt32BE key 0
  let k1 := readUInt32BE key 4
  let m1 := x ^^^ k0
  let m2 := rotl32 m1 7
  let m3 := m2 ^^^ k1
  rotl32 m3 13

/-- Round keys from the seed (`deriveRoundKeys`): the 32 bytes of
    HKDF-SHA-256 with info `"feistel-ipv4-scan"`, cut by `hkdf.slice(0,8)`,
    `hkdf.slice(8,16)`, `hkdf.slice(16,24)`, `hkdf.slice(24,32)`. -/
def deriveRoundKeys (seed : Nat) : List (List Nat) :=
  let hkdf := hkdfSha256_32 (toBytesBE 8 seed) (strBytes "feistel-ipv4-scan")
  [(hkdf.take 8).drop 0, (hkdf.take 16).drop 8, (hkdf.take 24).drop 16, (hkdf.take 32).drop 24]

/-- One Feistel round (`feistelRound`): split the 32-bit address into 16-bit
    halves, expand the right half by duplication, mix it, XOR the low 16 mix
    bits into the right half, and pack `(newLeft << 16) | left`. -/
def feistelRound (address : Nat) (roundKey : List Nat) : Nat :=
  let left := (address >>> 16) &&& 65535
  let right := address &&& 65535
  let rightExpanded := (right ||| (right <<< 16)) % 4294967296
  let mixed := feistelMix rightExpanded roundKey
  let newLeft := (right ^^^ (mixed &&& 65535)) &&& 65535
  ((newLeft <<< 16) ||| left) % 4294967296

/-- The address emitted for a given counter value: 4 Feistel rounds with the
    derived round keys, in order (`createFeistelGenerator(...).next()`). -/
def genValue (seed c : Nat) : Nat :=
  (deriveRoundKeys seed).foldl feistelRound c

/-- One call of the generator's `next()` given the current counter value:
    returns the emitted value (`none` once the counter reaches `0xFFFFFFFF`)
    and the new counter. -/
def next (seed currentIndex : Nat) : Option Nat × Nat :=
  if 4294967295 ≤ currentIndex then (none, currentIndex)
  else (some (genValue seed currentIndex), (currentIndex + 1) % 4294967296)

end Feistel

/-! ### Spec-side reference definitions for the Feistel step (claim C6) -/

namespace FeistelSpec

/-- Big-endian 32-bit word of bytes `off .. off+3`, written arithmetically
    as the spec reads it. -/
def specWord (key : List Nat) (off : Nat) : Nat :=
  (key.getD off 0) * 16777216 + (key.getD (off + 1) 0) * 65536 +
    (key.getD (off + 2) 0) * 256 + key.getD (off + 3) 0

/-- Mixing function as written in the spec:
    `F(x, k) = ((((x XOR k0) <<< 7) XOR k1) <<< 13)` with `k0`, `k1` the first
    two big-endian 32-bit words of the round key. -/
def specMix (x : Nat) (key : List Nat) : Nat :=
  rotl32 ((rotl32 (x ^^^ specWord key 0) 7) ^^^ specWord key 4) 13

/-- One round as described by the spec: halves as numbers, the right half
    expanded to 32 bits by duplication, new left `right XOR (mix & 0xFFFF)`,
    new right the old left. -/
def specRound (addr : Nat) (key : List Nat) : Nat :=
  let left := addr / 65536
  let right := addr % 65536
  let expanded := right * 65536 + right
  let mix := specMix expanded key
  let newLeft := right ^^^ (mix % 65536)
  newLeft * 65536 + left

/-- Round keys as described by the spec: the 32-byte HKDF-SHA-256 output with
    info `"feistel-ipv4-scan"`, split in order into four 8-byte keys. -/
def specRoundKeys (seed : Nat) : List (List Nat) :=
  let okm := hkdfSha256_32 (toBytesBE 8 seed) (strBytes "feistel-ipv4-scan")
  [okm.take 8, (okm.drop 8).take 8, (okm.drop 16).take 8, (okm.drop 24).take 8]

end FeistelSpec

/-- JS `String.prototype.startsWith`: character-wise prefix test
    (structural, unlike Lean's byte-position-based `String.startsWith`). -/
def strStartsWith (s p : String) : Bool := s.data.take p.data.length == p.data

/-! ### `src/src/core/security.js` -/

namespace Security

/-- Modelled from the spec: `src/src/core/security.js` imports
    `VERIFICATION_POW_PREFIX` from `../config/constants`, and the matching
    revision of that constants file is not part of the sources; the spec fixes
    the proof-of-work prefix as `"0000"` ("PoW: SHA-256(id || decimal(nonce))
    hex begins with `"0000"`"), in agreement with `POW_PREFIX = "0000"` in the
    constants file revision that is present. -/
def VERIFICATION_POW_PREFIX : String := "0000"

/-- `verifyPoW(id, nonce)`: JS `if (!nonce) return false` (so `nonce = 0` is
    rejected), then check that the hex SHA-256 digest of `id + nonce` starts
    with the proof-of-work prefix. -/
def verifyPoW (id : String) (nonce : Nat) : Bool :=
  if nonce = 0 then false
  else strStartsWith (hexOfBytes (sha256 (strBytes (id ++ toString nonce))))
    VERIFICATION_POW_PREFIX

/-- The proof-of-work predicate in the claim's words: the hex SHA-256 digest
    of the concatenation of `id` and the decimal rendering of `nonce` begins
    with `"0000"`. -/
def specPow (id : String) (nonce : Nat) : Bool :=
  strStartsWith (hexOfBytes (sha256 (strBytes (id ++ toString nonce)))) "0000"

end Security

/-! ### Association-list model of a JS `Map` (string or numeric keys).

`Map.set` replaces the value of an existing key in place and appends new
keys; `Map.delete` removes the key; `Map.get` is `List.lookup`. -/

/-- JS `Map.prototype.set`. -/
def mapSet {κ α : Type} [DecidableEq κ] (m : List (κ × α)) (k : κ) (v : α) : List (κ × α) :=
  if (m.lookup k).isSome then m.map (fun p => if p.1 = k then (k, v) else p)
  else m ++ [(k, v)]

/-- JS `Map.prototype.delete` (as a pure map transformer). -/
def mapDelete {κ α : Type} [DecidableEq κ] (m : List (κ × α)) (k : κ) : List (κ × α) :=
  m.filter (fun p => p.1 ≠ k)

/-! ### The monolithic `server.js` gossip node -/

namespace Server

/-- `const MAX_PEERS = 10000` of the monolithic `server.js`. -/
def MAX_PEERS : Nat := 10000

/-- A location record whose `lat`/`lon` passed the `typeof === "number"`
    check (`loc && typeof loc.lat === "number" && typeof loc.lon === "number"`
    is modelled as `Option Loc`; numeric values are abstracted as `Int`,
    no claim depends on their arithmetic). -/
structure Loc where
  lat : Int
  lon : Int
  city : Option String
deriving DecidableEq, Repr

/-- A wire message after JSON parsing. Destructuring an absent `sig` yields a
    falsy value, modelled as `""`; an absent `nonce` is falsy, modelled as `0`
    (`verifyPoW` and the handler treat `0` and `undefined` identically). -/
structure Msg where
  type : String
  id : String
  seq : Nat
  hops : Nat
  nonce : Nat
  sig : String
  loc : Option Loc
deriving DecidableEq, Repr

/-- A `seenPeers` entry: `{ seq, lastSeen, key, loc }`. The cached
    `crypto.KeyObject` is deterministically derived from `id`, so only its
    presence is tracked. -/
structure PeerRec where
  seq : Nat
  lastSeen : Int
  hasKey : Bool
  loc : Option Loc
deriving DecidableEq, Repr

/-- Host crypto primitives used by the handler that are not re-implemented:
    `crypto.createPublicKey` (which can throw: `keyOk = false`) and
    `crypto.verify` of `"seq:" + seq` against the key derived from `id`. -/
structure Host where
  keyOk : String → Bool
  sigVerify : String → Nat → String → Bool

/-- The mutable node state: own identity and sequence counter (`MY_ID`,
    `mySeq`), the `seenPeers` map, the set of open sockets
    (`swarm.connections`), and each socket's pinned `peerId` property. -/
structure NodeState where
  myId : String
  mySeq : Nat
  peers : List (String × PeerRec)
  conns : List Nat
  sockPeer : List (Nat × String)
deriving DecidableEq, Repr

/-- Result of one `handleMessage` call: the new state, the relayed message
    with the sockets it is written to (`relayMessage` writes to every
    connection except the source socket), and whether `broadcastUpdate`
    was invoked. -/
structure StepOut where
  state : NodeState
  relayed : Option (Msg × List Nat)
  broadcast : Bool
deriving DecidableEq, Repr

/-- Targets of `relayMessage(msg, sourceSocket)`: every socket of
    `swarm.connections` other than the source socket. -/
def relayTargets (conns : List Nat) (src : Nat) : List Nat :=
  conns.filter (fun s => s ≠ src)

/-- The inline proof-of-work check of `handleMessage` (`POW_PREFIX = "0000"`;
    the `!nonce` guard lives in `handleMessage` itself). -/
def powOk (id : String) (nonce : Nat) : Bool :=
  strStartsWith (hexOfBytes (sha256 (strBytes (id ++ toString nonce)))) Constants.POW_PREFIX

/-- Continuation of the HEARTBEAT branch after the PoW and duplicate-sequence
    filters: signature presence, key lookup/creation with the `MAX_PEERS`
    capacity check for new ids, signature verification, admission, `peerId`
    pinning for 0-hop messages, and the relay decision `hops < 3`. -/
def heartbeatCont (h : Host) (st : NodeState) (msg : Msg) (src : Nat) (now : Int)
    (stored : Option PeerRec) : StepOut :=
  if msg.sig = "" then ⟨st, none, false⟩
  else
    let cached := match stored with
      | some r => r.hasKey
      | none => false
    if cached = false ∧ stored = none ∧ MAX_PEERS ≤ st.peers.length then ⟨st, none, false⟩
    else if cached = false ∧ h.keyOk msg.id = false then ⟨st, none, false⟩
    else if h.sigVerify msg.id msg.seq msg.sig = false then ⟨st, none, false⟩
    else
      let sockPeer' := if msg.hops = 0 then mapSet st.sockPeer src msg.id else st.sockPeer
      let wasNew := stored.isNone
      let peers' := mapSet st.peers msg.id ⟨msg.seq, now, true, msg.loc⟩
      let st' := { st with peers := peers', sockPeer := sockPeer' }
      let relayed := if msg.hops < 3 then
          some ({ msg with hops := msg.hops + 1 }, relayTargets st.conns src)
        else none
      ⟨st', relayed, wasNew⟩

/-- `handleMessage(msg, sourceSocket)` of the monolithic `server.js`:
    HEARTBEAT — drop falsy nonce, verify PoW, drop `seq ≤ stored.seq`
    duplicates before any signature work, then `heartbeatCont`;
    LEAVE — delete a known id and relay if `hops < 3`, drop unknown ids;
    other types are ignored. -/
def handleMessage (h : Host) (st : NodeState) (msg : Msg) (src : Nat) (now : Int) : StepOut :=
  if msg.type = "HEARTBEAT" then
    if msg.nonce = 0 then ⟨st, none, false⟩
    else if powOk msg.id msg.nonce = false then ⟨st, none, false⟩
    else
      match st.peers.lookup msg.id with
      | some r => if msg.seq ≤ r.seq then ⟨st, none, false⟩
                  else heartbeatCont h st msg src now (some r)
      | none => heartbeatCont h st msg src now none
  else if msg.type = "LEAVE" then
    match st.peers.lookup msg.id with
    | some _ =>
      let st' := { st with peers := mapDelete st.peers msg.id }
      let relayed := if msg.hops < 3 then
          some ({ msg with hops := msg.hops + 1 }, relayTargets st.conns src)
        else none
      ⟨st', relayed, true⟩
    | none => ⟨st, none, false⟩
  else ⟨st, none, false⟩

/-- The periodic heartbeat tick (`setInterval`, 5000 ms): increment `mySeq`,
    refresh the own record (written without a `key` field and with the
    current opt-in location), broadcast a heartbeat (write-only, no state
    effect), then evict every record with `now - lastSeen > 15000`. -/
def tick (st : NodeState) (now : Int) (myLoc : Option Loc) : NodeState :=
  let mySeq' := st.mySeq + 1
  let peers1 := mapSet st.peers st.myId ⟨mySeq', now, false, myLoc⟩
  let peers2 := peers1.filter (fun p => ¬ (15000 < now - p.2.lastSeen))
  { st with mySeq := mySeq', peers := peers2 }

/-- The socket `close` handler: if the socket had a pinned `peerId` that is
    in the registry, delete that record; the swarm also drops the socket from
    its connection set. -/
def socketClose (st : NodeState) (sock : Nat) : NodeState :=
  let st1 := match st.sockPeer.lookup sock with
    | some pid => if (st.peers.lookup pid).isSome then
        { st with peers := mapDelete st.peers pid }
      else st
    | none => st
  { st1 with conns := st1.conns.filter (fun s => s ≠ sock),
             sockPeer := mapDelete st1.sockPeer sock }

/-- A new swarm connection: the socket joins `swarm.connections`; the hello
    heartbeat it triggers is write-only and does not change the state. -/
def connOpen (st : NodeState) (sock : Nat) : NodeState :=
  { st with conns := st.conns ++ [sock] }

/-- The startup state: `seenPeers.set(MY_ID, { seq: mySeq, lastSeen:
    Date.now(), loc: null })` with `mySeq = 0`, no connections. -/
def initState (myId : String) (now : Int) : NodeState :=
  { myId := myId, mySeq := 0, peers := [(myId, ⟨0, now, false, none⟩)],
    conns := [], sockPeer := [] }

/-- Invariant (I3) of the spec: the registry holds a record for the local id
    whose `seq` equals the local sequence counter. -/
def SelfInv (st : NodeState) : Prop :=
  ∃ r, st.peers.lookup st.myId = some r ∧ r.seq = st.mySeq

/-- Auxiliary invariant: no socket is pinned to the local id (the handler
    pins a socket only to the id of an accepted 0-hop heartbeat, and no
    heartbeat for the local id is ever accepted under a sound signature
    oracle). -/
def NoSelfPin (st : NodeState) : Prop :=
  ∀ s pid, st.sockPeer.lookup s = some pid → pid ≠ st.myId

/-- The signature oracle is sound for the local id in state `st`: the only
    `"seq:" + s` strings signed by this node's private key are those it
    signed itself, i.e. `s ≤ mySeq` (Ed25519 unforgeability). -/
def SoundForSelf (h : Host) (st : NodeState) : Prop :=
  ∀ s sg, h.sigVerify st.myId s sg = true → s ≤ st.mySeq

end Server

/-! ### The modular `PeerManager` (`cleanupStalePeers`) -/

namespace Peers

/-- A `PeerManager`: the `seenPeers` map and the local sequence counter. -/
structure PeerManager where
  seenPeers : List (String × Server.PeerRec)
  mySeq : Nat
deriving DecidableEq, Repr

/-- `cleanupStalePeers()`: iterate over the entries, delete every record with
    `now - data.lastSeen > PEER_TIMEOUT`, return the number removed (the JS
    `for...of` with in-place `delete` of the current key visits every entry
    exactly once, i.e. acts as a filter). -/
def cleanupStalePeers (pm : PeerManager) (now : Int) : PeerManager × Nat :=
  let stale := fun (p : String × Server.PeerRec) => Constants.PEER_TIMEOUT < now - p.2.lastSeen
  ({ pm with seenPeers := pm.seenPeers.filter (fun p => ¬ stale p) },
   (pm.seenPeers.filter stale).length)

end Peers

/-! ### The `SSEManager` -/

namespace SSE

/-- The `SSEManager`: connected SSE response streams and the timestamp of the
    last delivered broadcast. -/
structure SSEManager where
  clients : List Nat
  lastBroadcast : Int
deriving DecidableEq, Repr

/-- `broadcastUpdate(data, force)` at time `now`: unless forced, return
    without writing while `now - lastBroadcast < BROADCAST_THROTTLE`;
    otherwise stamp `lastBroadcast := now` and write the SSE frame
    `data: <json>\n\n` to every client. `dataStr` stands for
    `JSON.stringify(data)`. -/
def broadcastUpdate (m : SSEManager) (dataStr : String) (force : Bool) (now : Int) :
    SSEManager × List (Nat × String) :=
  if force = false ∧ now - m.lastBroadcast < Constants.BROADCAST_THROTTLE then (m, [])
  else ({ m with lastBroadcast := now },
        m.clients.map (fun c => (c, "data: " ++ dataStr ++ "\n\n")))

end SSE

/-! ### `src/src/p2p/relay.js` -/

namespace Relay

/-- The diagnostics counters touched by `relayMessage`
    (`DiagnosticsManager.increment` adds the given amount to an existing
    key; `bytesRelayed` exists in `stats`). -/
structure Diagnostics where
  bytesRelayed : Int
deriving DecidableEq, Repr

/-- `relayMessage(msg, sourceSocket, swarm, diagnostics)`: serialize once
    (`JSON.stringify(msg) + "\n"`, with `stringify` the host JSON
    serializer), increment `bytesRelayed` by `data.length *
    (swarm.connections.size - 1)`, and write `data` to every connection that
    is not the source socket (`sourceSocket` may be absent: `none` models
    `null`, which JS `!==` distinguishes from every socket). -/
def relayMessage (stringify : Server.Msg → String) (msg : Server.Msg) (src : Option Nat)
    (conns : List Nat) (diag : Diagnostics) : Diagnostics × List (Nat × String) :=
  let data := stringify msg ++ "\n"
  let relayCount : Int := (conns.length : Int) - 1
  ({ diag with bytesRelayed := diag.bytesRelayed + (data.length : Int) * relayCount },
   (conns.filter (fun s => some s ≠ src)).map (fun s => (s, data)))

end Relay

/-! ### Lemmas about the JS `Map` model -/

theorem lookup_append {κ α : Type} [DecidableEq κ] (m m₂ : List (κ × α)) (k : κ) :
    (m ++ m₂).lookup k = match m.lookup k with
      | some v => some v
      | none => m₂.lookup k := by
  induction m with
  | nil => simp
  | cons q t ih =>
    obtain ⟨a, b⟩ := q
    rw [List.cons_append, List.lookup_cons, List.lookup_cons]
    cases hab : k == a
    · simpa [hab] using ih
    · simp [hab]

theorem lookup_map_replace_ne {κ α : Type} [DecidableEq κ] (t : List (κ × α)) (k k' : κ)
    (v : α) (hk : k' ≠ k) :
    (t.map (fun p => if p.1 = k then (k, v) else p)).lookup k' = t.lookup k' := by
  induction t with
  | nil => rfl
  | cons q t ih =>
    obtain ⟨a, b⟩ := q
    by_cases ha : a = k
    · have h1 : (k' == k) = false := by simp [hk]
      have h2 : (k' == a) = false := by simp [ha ▸ hk]
      simp only [List.map_cons, ha, if_pos, List.lookup_cons, h1, h2]
      exact ih
    · simp only [List.map_cons, if_neg (by simpa using ha), List.lookup_cons]
      cases hab : k' == a
      · simpa [hab] using ih
      · simp [hab]

theorem lookup_map_replace_self {κ α : Type} [DecidableEq κ] (t : List (κ × α)) (k : κ)
    (v : α) (hs : (t.lookup k).isSome = true) :
    (t.map (fun p => if p.1 = k then (k, v) else p)).lookup k = some v := by
  induction t with
  | nil => simp at hs
  | cons q t ih =>
    obtain ⟨a, b⟩ := q
    by_cases ha : a = k
    · simp [List.map_cons, ha, List.lookup_cons]
    · have h2 : (k == a) = false := by simp [Ne.symm ha]
      have hs' : (t.lookup k).isSome = true := by
        simpa [List.lookup_cons, h2] using hs
      simp only [List.map_cons, if_neg (by simpa using ha), List.lookup_cons, h2]
      exact ih hs'

theorem lookup_mapSet {κ α : Type} [DecidableEq κ] (m : List (κ × α)) (k k' : κ) (v : α) :
    (mapSet m k v).lookup k' = if k' = k then some v else m.lookup k' := by
  unfold mapSet
  by_cases hs : (m.lookup k).isSome
  · rw [if_pos hs]
    by_cases hk : k' = k
    · subst hk
      rw [lookup_map_replace_self _ _ _ hs, if_pos rfl]
    · rw [lookup_map_replace_ne _ _ _ _ hk, if_neg hk]
  · rw [if_neg hs]
    have hn : m.lookup k = none := by
      cases h : m.lookup k with
      | none => rfl
      | some w => rw [h] at hs; simp at hs
    rw [lookup_append m [(k, v)] k']
    by_cases hk : k' = k
    · subst hk
      rw [hn]
      simp [List.lookup_cons]
    · rw [if_neg hk]
      cases h : m.lookup k' with
      | none =>
        simp only [h]
        rw [List.lookup_cons]
        simp [show (k' == k) = false from by simp [hk]]
      | some w => simp [h]

theorem lookup_mapDelete {κ α : Type} [DecidableEq κ] (m : List (κ × α)) (k k' : κ) :
    (mapDelete m k).lookup k' = if k' = k then none else m.lookup k' := by
  unfold mapDelete
  induction m with
  | nil => simp [List.lookup]
  | cons q t ih =>
    obtain ⟨a, b⟩ := q
    rw [List.filter_cons]
    by_cases ha : a = k
    · rw [if_neg (by simpa using ha)]
      rw [ih]
      by_cases hk : k' = k
      · rw [if_pos hk, if_pos hk]
      · have h3 : (k' == a) = false := by
          simp only [beq_eq_false_iff_ne, ne_eq]
          intro hh
          exact hk (hh.trans ha)
        rw [if_neg hk, if_neg hk, List.lookup_cons]
        simp [h3]
    · rw [if_pos (by simpa using ha)]
      rw [List.lookup_cons, List.lookup_cons]
      cases hab : k' == a
      · rw [ih]
      · have hk2 : k' = a := eq_of_beq hab
        rw [if_neg (fun hh => ha (hk2 ▸ hh))]

theorem lookup_filter_of_lookup {κ α : Type} [DecidableEq κ] (p : κ × α → Bool)
    (m : List (κ × α)) (k : κ) (v : α) (hl : m.lookup k = some v) (hp : p (k, v) = true) :
    (m.filter p).lookup k = some v := by
  induction m with
  | nil => simp at hl
  | cons q t ih =>
    obtain ⟨a, b⟩ := q
    rw [List.filter_cons]
    by_cases ha : k = a
    · have hb : b = v := by
        have h := hl
        rw [List.lookup_cons] at h
        simpa [ha] using h
      subst ha
      subst hb
      rw [if_pos hp]
      simp [List.lookup_cons]
    · have h2 : (k == a) = false := by simp [ha]
      have hl' : t.lookup k = some v := by
        have h := hl
        rw [List.lookup_cons] at h
        simpa [h2] using h
      by_cases hpq : p (a, b) = true
      · rw [if_pos hpq, List.lookup_cons]
        simp only [h2]
        exact ih hl'
      · rw [if_neg hpq]
        exact ih hl'

theorem lookup_eq_none_of_not_mem_keys {κ α : Type} [DecidableEq κ] (m : List (κ × α))
    (k : κ) (h : k ∉ m.map Prod.fst) : m.lookup k = none := by
  induction m with
  | nil => rfl
  | cons q t ih =>
    obtain ⟨a, b⟩ := q
    simp only [List.map_cons, List.mem_cons] at h
    push_neg at h
    rw [List.lookup_cons]
    simp only [show (k == a) = false from by simp [h.1]]
    exact ih h.2

theorem lookup_filter_iff_nodup {κ α : Type} [DecidableEq κ] (p : κ × α → Bool)
    (m : List (κ × α)) (hm : (m.map Prod.fst).Nodup) (k : κ) (v : α) :
    (m.filter p).lookup k = some v ↔ (m.lookup k = some v ∧ p (k, v) = true) := by
  induction m with
  | nil => simp
  | cons q t ih =>
    obtain ⟨a, b⟩ := q
    rw [List.map_cons] at hm
    obtain ⟨hm1, hm2⟩ := List.nodup_cons.mp hm
    have hm1' : a ∉ t.map Prod.fst := hm1
    rw [List.filter_cons]
    by_cases ha : k = a
    · subst ha
      have hfnone : (t.filter p).lookup k = none := by
        apply lookup_eq_none_of_not_mem_keys
        intro hmem
        apply hm1'
        rcases List.mem_map.mp hmem with ⟨q', hq', hfst⟩
        exact List.mem_map.mpr ⟨q', (List.mem_filter.mp hq').1, hfst⟩
      by_cases hpq : p (k, b) = true
      · rw [if_pos hpq, List.lookup_cons, List.lookup_cons]
        simp only [beq_self_eq_true]
        constructor
        · intro h
          have hb : b = v := by simpa using h
          subst hb
          exact ⟨rfl, hpq⟩
        · intro h
          have hb : b = v := by simpa using h.1
          simp [hb]
      · rw [if_neg hpq, hfnone, List.lookup_cons]
        simp only [beq_self_eq_true]
        constructor
        · intro h
          exact absurd h (by simp)
        · intro h
          have hb : b = v := by simpa using h.1
          subst hb
          exact absurd h.2 hpq
    · have h2 : (k == a) = false := by simp [ha]
      by_cases hpq : p (a, b) = true
      · rw [if_pos hpq, List.lookup_cons, List.lookup_cons]
        simp only [h2]
        exact ih hm2
      · rw [if_neg hpq, List.lookup_cons]
        simp only [h2]
        exact ih hm2

theorem not_mem_relayTargets (conns : List Nat) (src : Nat) :
    src ∉ Server.relayTargets conns src := by
  simp [Server.relayTargets, List.mem_filter]

/-- Either `heartbeatCont` drops the message and leaves the state unchanged,
    or the signature verified and the message was admitted. -/
theorem heartbeatCont_shape (h : Server.Host) (st : Server.NodeState) (msg : Server.Msg)
    (src : Nat) (now : Int) (stored : Option Server.PeerRec) :
    Server.heartbeatCont h st msg src now stored = ⟨st, none, false⟩ ∨
    (h.sigVerify msg.id msg.seq msg.sig = true ∧
     Server.heartbeatCont h st msg src now stored =
       ⟨{ st with
            peers := mapSet st.peers msg.id ⟨msg.seq, now, true, msg.loc⟩,
            sockPeer := if msg.hops = 0 then mapSet st.sockPeer src msg.id else st.sockPeer },
        (if msg.hops < 3 then
           some ({ msg with hops := msg.hops + 1 }, Server.relayTargets st.conns src)
         else none),
        stored.isNone⟩) := by
  cases stored with
  | none =>
    unfold Server.heartbeatCont
    dsimp only
    split
    · exact Or.inl rfl
    · split
      · exact Or.inl rfl
      · split
        · exact Or.inl rfl
        · split
          · exact Or.inl rfl
          · rename_i h4
            exact Or.inr ⟨by simpa using h4, rfl⟩
  | some r =>
    unfold Server.heartbeatCont
    dsimp only
    split
    · exact Or.inl rfl
    · split
      · exact Or.inl rfl
      · split
        · exact Or.inl rfl
        · split
          · exact Or.inl rfl
          · rename_i h4
            exact Or.inr ⟨by simpa using h4, rfl⟩

/-- Every `handleMessage` call either leaves the state unchanged with no
    relay and no broadcast, or admits a verified fresh-sequence HEARTBEAT,
    or deletes a known id on LEAVE. -/
theorem handleMessage_shape (h : Server.Host) (st : Server.NodeState) (msg : Server.Msg)
    (src : Nat) (now : Int) :
    Server.handleMessage h st msg src now = ⟨st, none, false⟩ ∨
    (msg.type = "HEARTBEAT" ∧ msg.nonce ≠ 0 ∧
     (st.peers.lookup msg.id = none ∨ ∃ r, st.peers.lookup msg.id = some r ∧ r.seq < msg.seq) ∧
     h.sigVerify msg.id msg.seq msg.sig = true ∧
     Server.handleMessage h st msg src now =
       ⟨{ st with
            peers := mapSet st.peers msg.id ⟨msg.seq, now, true, msg.loc⟩,
            sockPeer := if msg.hops = 0 then mapSet st.sockPeer src msg.id else st.sockPeer },
        (if msg.hops < 3 then
           some ({ msg with hops := msg.hops + 1 }, Server.relayTargets st.conns src)
         else none),
        (st.peers.lookup msg.id).isNone⟩) ∨
    (msg.type = "LEAVE" ∧ (∃ r, st.peers.lookup msg.id = some r) ∧
     Server.handleMessage h st msg src now =
       ⟨{ st with peers := mapDelete st.peers msg.id },
        (if msg.hops < 3 then
           some ({ msg with hops := msg.hops + 1 }, Server.relayTargets st.conns src)
         else none),
        true⟩) := by
  unfold Server.handleMessage
  by_cases ht : msg.type = "HEARTBEAT"
  · rw [if_pos ht]
    by_cases hn : msg.nonce = 0
    · rw [if_pos hn]
      exact Or.inl rfl
    · rw [if_neg hn]
      by_cases hpw : Server.powOk msg.id msg.nonce = false
      · rw [if_pos hpw]
        exact Or.inl rfl
      · rw [if_neg hpw]
        cases hst : st.peers.lookup msg.id with
        | some r =>
          dsimp only
          by_cases hle : msg.seq ≤ r.seq
          · rw [if_pos hle]
            exact Or.inl rfl
          · rw [if_neg hle]
            rcases heartbeatCont_shape h st msg src now (some r) with hN | ⟨hsig, hE⟩
            · exact Or.inl hN
            · refine Or.inr (Or.inl ⟨ht, hn, Or.inr ⟨r, rfl, by omega⟩, hsig, ?_⟩)
              rw [hE]
        | none =>
          dsimp only
          rcases heartbeatCont_shape h st msg src now none with hN | ⟨hsig, hE⟩
          · exact Or.inl hN
          · refine Or.inr (Or.inl ⟨ht, hn, Or.inl rfl, hsig, ?_⟩)
            rw [hE]
  · rw [if_neg ht]
    by_cases hl : msg.type = "LEAVE"
    · rw [if_pos hl]
      cases hst : st.peers.lookup msg.id with
      | some r => exact Or.inr (Or.inr ⟨hl, ⟨r, rfl⟩, rfl⟩)
      | none => exact Or.inl rfl
    · rw [if_neg hl]
      exact Or.inl rfl

theorem length_filter_add_length_filter_not {α : Type} (p : α → Bool) (l : List α) :
    (l.filter p).length + (l.filter (fun a => !(p a))).length = l.length := by
  induction l with
  | nil => rfl
  | cons a t ih =>
    rw [List.filter_cons, List.filter_cons]
    by_cases hp : p a = true
    · rw [if_pos hp, if_neg (by simp [hp])]
      simp only [List.length_cons]
      omega
    · have hpf : p a = false := Bool.eq_false_iff.mpr hp
      rw [if_neg hp, if_pos (by simp [hpf])]
      simp only [List.length_cons]
      omega

/-! ### Concrete states and messages used by counterexamples and witnesses -/

namespace Examples

/-- A host whose key construction and signature verification always fail. -/
def host0 : Server.Host := ⟨fun _ => false, fun _ _ _ => false⟩

/-- A host whose key construction and signature verification always succeed
    (such behaviour is realizable: honestly signed messages verify). -/
def hostTrue : Server.Host := ⟨fun _ => true, fun _ _ _ => true⟩

def recP : Server.PeerRec := ⟨1, 0, true, none⟩

/-- A node "me" with a known peer "p" and two open sockets `0` and `1`. -/
def stW : Server.NodeState :=
  ⟨"me", 0, [("me", ⟨0, 0, false, none⟩), ("p", recP)], [0, 1], []⟩

/-- A LEAVE for the known peer "p" arriving with `hops = 2 = MAX_RELAY_HOPS`. -/
def leave2 : Server.Msg := ⟨"LEAVE", "p", 0, 2, 0, "", none⟩

/-- A LEAVE for the known peer "p" arriving with `hops = 0`. -/
def leave0 : Server.Msg := ⟨"LEAVE", "p", 0, 0, 0, "", none⟩

/-- A LEAVE naming the local node's own id. -/
def leaveMe : Server.Msg := ⟨"LEAVE", "me", 0, 0, 0, "", none⟩

/-- A valid-PoW heartbeat from id "A" with sequence 5
    (SHA-256("A28384") begins with "0000"). -/
def hbA5 : Server.Msg := ⟨"HEARTBEAT", "A", 5, 1, 28384, "aa", none⟩

/-- The same identity's heartbeat with the older sequence 3. -/
def hbA3 : Server.Msg := ⟨"HEARTBEAT", "A", 3, 1, 28384, "aa", none⟩

/-- A LEAVE for id "A". -/
def leaveA : Server.Msg := ⟨"LEAVE", "A", 0, 1, 0, "", none⟩

/-- State after the node accepts `hbA5` from its initial state. -/
def c3s1 : Server.NodeState :=
  (Server.handleMessage hostTrue (Server.initState "me" 0) hbA5 0 0).state

/-- State after a LEAVE for "A" follows. -/
def c3s2 : Server.NodeState := (Server.handleMessage hostTrue c3s1 leaveA 0 0).state

/-- State after the old-sequence heartbeat `hbA3` is replayed. -/
def c3s3 : Server.NodeState := (Server.handleMessage hostTrue c3s2 hbA3 0 0).state

/-- A registry holding id "A" at sequence 5. -/
def stDup : Server.NodeState := ⟨"me", 0, [("A", ⟨5, 0, true, none⟩)], [], []⟩

/-- A duplicate-sequence heartbeat for "A" (`seq = 5 ≤ 5`). -/
def hbDup : Server.Msg := ⟨"HEARTBEAT", "A", 5, 1, 1, "x", none⟩

end Examples

/-! ### Claim C2 -/

/-- C2 counterexample: the claim says a relayed copy is sent only when the
    received `hops` is strictly below `MAX_RELAY_HOPS = 2`, but the handler
    branches on `hops < 3`: a LEAVE arriving with `hops = 2` for a known id is
    relayed (with `hops = 3`) to the socket other than its source. -/
theorem leave_hops2_relayed :
    ¬ (Examples.leave2.hops < Constants.MAX_RELAY_HOPS) ∧
    (Server.handleMessage Examples.host0 Examples.stW Examples.leave2 0 0).relayed =
      some ({ Examples.leave2 with hops := 3 }, [1]) := by
  constructor
  · decide
  · decide

/-- C2 (amended): whenever `handleMessage` relays a copy of an inbound
    HEARTBEAT or LEAVE, the received `hops` was strictly less than 3, the
    copy carries `hops + 1`, and the copy is written to every currently open
    socket except the source socket — in particular never back to the socket
    the message arrived on. -/
theorem relay_hop_bound_split_horizon :
    ∀ (h : Server.Host) (st : Server.NodeState) (msg : Server.Msg) (src : Nat) (now : Int)
      (m' : Server.Msg) (ts : List Nat),
      (Server.handleMessage h st msg src now).relayed = some (m', ts) →
      msg.hops < 3 ∧ m' = { msg with hops := msg.hops + 1 } ∧
      ts = Server.relayTargets st.conns src ∧ src ∉ ts := by
  intro h st msg src now m' ts hrel
  rcases handleMessage_shape h st msg src now with hN | ⟨_, _, _, _, hE⟩ | ⟨_, _, hE⟩ <;>
    [skip; skip; skip]
  · rw [hN] at hrel
    exact absurd hrel (by simp)
  · rw [hE] at hrel
    dsimp only at hrel
    by_cases h3 : msg.hops < 3
    · rw [if_pos h3] at hrel
      simp only [Option.some.injEq, Prod.mk.injEq] at hrel
      obtain ⟨hm, hts⟩ := hrel
      exact ⟨h3, hm.symm, hts.symm, fun hmem => not_mem_relayTargets st.conns src (hts ▸ hmem)⟩
    · rw [if_neg h3] at hrel
      exact absurd hrel (by simp)
  · rw [hE] at hrel
    dsimp only at hrel
    by_cases h3 : msg.hops < 3
    · rw [if_pos h3] at hrel
      simp only [Option.some.injEq, Prod.mk.injEq] at hrel
      obtain ⟨hm, hts⟩ := hrel
      exact ⟨h3, hm.symm, hts.symm, fun hmem => not_mem_relayTargets st.conns src (hts ▸ hmem)⟩
    · rw [if_neg h3] at hrel
      exact absurd hrel (by simp)

/-- Witness for the amended C2 theorem at a concrete relayed LEAVE. -/
theorem relay_hop_bound_split_horizon_witness :
    Examples.leave0.hops < 3 ∧
    ({ Examples.leave0 with hops := 1 } : Server.Msg) =
      { Examples.leave0 with hops := Examples.leave0.hops + 1 } ∧
    ([1] : List Nat) = Server.relayTargets Examples.stW.conns 0 ∧
    (0 : Nat) ∉ ([1] : List Nat) :=
  relay_hop_bound_split_horizon Examples.host0 Examples.stW Examples.leave0 0 0
    { Examples.leave0 with hops := 1 } [1] (by decide)

/-! ### Claim C3 -/

/-- C3 (amended): an inbound HEARTBEAT whose id has a stored record with
    `stored.seq ≥ msg.seq` is dropped with the whole node state unchanged,
    and the result does not depend on the host crypto oracle (the drop
    happens before key construction and signature verification); moreover a
    stored record for the message's id is, after any HEARTBEAT, either
    untouched or replaced with `seq = msg.seq > stored.seq`. Strict
    monotonicity of accepted sequences therefore holds while the record
    remains present, but not across a removal (see the counterexample). -/
theorem seq_dup_dropped_before_sig :
    (∀ (h h₂ : Server.Host) (st : Server.NodeState) (msg : Server.Msg) (src : Nat) (now : Int)
       (r : Server.PeerRec),
       msg.type = "HEARTBEAT" → st.peers.lookup msg.id = some r → msg.seq ≤ r.seq →
       Server.handleMessage h st msg src now = ⟨st, none, false⟩ ∧
       Server.handleMessage h₂ st msg src now = Server.handleMessage h st msg src now) ∧
    (∀ (h : Server.Host) (st : Server.NodeState) (msg : Server.Msg) (src : Nat) (now : Int)
       (r : Server.PeerRec),
       msg.type = "HEARTBEAT" → st.peers.lookup msg.id = some r →
       ∀ r', (Server.handleMessage h st msg src now).state.peers.lookup msg.id = some r' →
         r' = r ∨ (r.seq < msg.seq ∧ r'.seq = msg.seq)) := by
  constructor
  · intro h h₂ st msg src now r ht hst hle
    have key : ∀ h' : Server.Host, Server.handleMessage h' st msg src now = ⟨st, none, false⟩ := by
      intro h'
      unfold Server.handleMessage
      rw [if_pos ht]
      by_cases hn : msg.nonce = 0
      · rw [if_pos hn]
      · rw [if_neg hn]
        by_cases hpw : Server.powOk msg.id msg.nonce = false
        · rw [if_pos hpw]
        · rw [if_neg hpw, hst]
          dsimp only
          rw [if_pos hle]
    exact ⟨key h, (key h₂).trans (key h).symm⟩
  · intro h st msg src now r ht hst r' hr'
    rcases handleMessage_shape h st msg src now with hN | ⟨_, _, hc, _, hE⟩ | ⟨hl, _, _⟩
    · rw [hN] at hr'
      dsimp only at hr'
      rw [hst] at hr'
      exact Or.inl (Option.some.injEq .. ▸ hr'.symm :)
    · rw [hE] at hr'
      dsimp only at hr'
      rw [lookup_mapSet, if_pos rfl] at hr'
      have hr'' : r' = (⟨msg.seq, now, true, msg.loc⟩ : Server.PeerRec) := by
        cases hr'
        rfl
      rcases hc with hnone | ⟨r₀, hr₀, hlt⟩
      · rw [hst] at hnone
        exact absurd hnone (by simp)
      · rw [hst] at hr₀
        have : r₀ = r := by
          cases hr₀
          rfl
        subst this
        exact Or.inr ⟨hlt, by rw [hr'']⟩
    · rw [ht] at hl
      exact absurd hl (by decide)

set_option maxRecDepth 1000000 in
/-- Witness for the amended C3 theorem at a concrete duplicate heartbeat. -/
theorem seq_dup_dropped_before_sig_witness :
    (Server.handleMessage Examples.hostTrue Examples.stDup Examples.hbDup 0 0 =
       ⟨Examples.stDup, none, false⟩ ∧
     Server.handleMessage Examples.host0 Examples.stDup Examples.hbDup 0 0 =
       Server.handleMessage Examples.hostTrue Examples.stDup Examples.hbDup 0 0) ∧
    ((⟨5, 0, true, none⟩ : Server.PeerRec) = ⟨5, 0, true, none⟩ ∨
     (5 < Examples.hbDup.seq ∧ (⟨5, 0, true, none⟩ : Server.PeerRec).seq = Examples.hbDup.seq)) :=
  ⟨seq_dup_dropped_before_sig.1 Examples.hostTrue Examples.host0 Examples.stDup Examples.hbDup
     0 0 ⟨5, 0, true, none⟩ rfl (by decide) (by decide),
   seq_dup_dropped_before_sig.2 Examples.hostTrue Examples.stDup Examples.hbDup 0 0
     ⟨5, 0, true, none⟩ rfl (by decide) ⟨5, 0, true, none⟩ (by decide)⟩

set_option maxRecDepth 1000000 in
/-- C3 counterexample: acceptance order is not globally monotonic. From the
    initial state the node accepts the heartbeat of "A" with sequence 5; an
    (unauthenticated) LEAVE removes the record; the replayed old heartbeat
    with sequence 3 is then accepted again, so the accepted sequences for
    peer "A" are 5 followed by 3. -/
theorem seq_decreases_after_leave_replay :
    (Server.initState "me" 0).peers.lookup "A" = none ∧
    Examples.c3s1.peers.lookup "A" = some ⟨5, 0, true, none⟩ ∧
    Examples.c3s2.peers.lookup "A" = none ∧
    Examples.c3s3.peers.lookup "A" = some ⟨3, 0, true, none⟩ := by
  refine ⟨rfl, ?_, ?_, ?_⟩ <;> decide

/-! ### Claim C4 -/

/-- C4 (amended): for every positive nonce, `verifyPoW(id, nonce)` returns
    true exactly when the hex SHA-256 digest of `id ++ decimal(nonce)` begins
    with `"0000"`; for `nonce = 0` it returns `false` unconditionally
    (JS `if (!nonce) return false` treats the number 0 as falsy). -/
theorem verifyPoW_positive_nonce :
    (∀ (id : String) (nonce : Nat), 0 < nonce →
       Security.verifyPoW id nonce = Security.specPow id nonce) ∧
    (∀ id : String, Security.verifyPoW id 0 = false) := by
  constructor
  · intro id nonce hn
    unfold Security.verifyPoW Security.specPow
    rw [if_neg (by omega)]
    rfl
  · intro id
    unfold Security.verifyPoW
    rw [if_pos rfl]

set_option maxRecDepth 1000000 in
/-- Witness for the amended C4 theorem at the mined pair ("A", 28384). -/
theorem verifyPoW_positive_nonce_witness :
    0 < 28384 ∧ Security.verifyPoW "A" 28384 = Security.specPow "A" 28384 :=
  ⟨by decide, verifyPoW_positive_nonce.1 "A" 28384 (by decide)⟩

set_option maxRecDepth 1000000 in
/-- C4 counterexample: SHA-256("id1719" ++ "0") begins with "0000", yet
    `verifyPoW "id1719" 0` returns false because of the falsy-nonce guard,
    refuting the claimed equivalence for nonce 0. -/
theorem verifyPoW_rejects_valid_zero_nonce :
    Security.verifyPoW "id1719" 0 = false ∧ Security.specPow "id1719" 0 = true := by
  constructor
  · rfl
  · decide

/-! ### Claim C7 -/

/-- C7: processing a LEAVE for an unknown id leaves the whole state unchanged
    and relays nothing; a LEAVE for a known id removes exactly that record
    (every other id's lookup is untouched, as are `myId`, `mySeq`, the
    connection set and the socket pins) and relays the message with `hops`
    incremented exactly when the received `hops` is under the handler's
    relay limit (`hops < 3`). -/
theorem leave_frame_effect :
    ∀ (h : Server.Host) (st : Server.NodeState) (msg : Server.Msg) (src : Nat) (now : Int),
      msg.type = "LEAVE" →
      (st.peers.lookup msg.id = none →
        Server.handleMessage h st msg src now = ⟨st, none, false⟩) ∧
      (∀ r, st.peers.lookup msg.id = some r →
        (Server.handleMessage h st msg src now).state.peers.lookup msg.id = none ∧
        (∀ k, k ≠ msg.id →
          (Server.handleMessage h st msg src now).state.peers.lookup k = st.peers.lookup k) ∧
        (Server.handleMessage h st msg src now).state.myId = st.myId ∧
        (Server.handleMessage h st msg src now).state.mySeq = st.mySeq ∧
        (Server.handleMessage h st msg src now).state.conns = st.conns ∧
        (Server.handleMessage h st msg src now).state.sockPeer = st.sockPeer ∧
        (Server.handleMessage h st msg src now).relayed = (if msg.hops < 3 then
            some ({ msg with hops := msg.hops + 1 }, Server.relayTargets st.conns src)
          else none)) := by
  intro h st msg src now hl
  have hne : msg.type ≠ "HEARTBEAT" := by
    rw [hl]
    decide
  constructor
  · intro hnone
    unfold Server.handleMessage
    rw [if_neg hne, if_pos hl, hnone]
  · intro r hsome
    unfold Server.handleMessage
    rw [if_neg hne, if_pos hl, hsome]
    dsimp only
    refine ⟨?_, ?_, rfl, rfl, rfl, rfl, rfl⟩
    · rw [lookup_mapDelete, if_pos rfl]
    · intro k hk
      rw [lookup_mapDelete, if_neg hk]

/-- Witness for C7 at a concrete known-id LEAVE. -/
theorem leave_frame_effect_witness :
    (Server.handleMessage Examples.host0 Examples.stW Examples.leave0 0 0).state.peers.lookup "p"
      = none ∧
    (Server.handleMessage Examples.host0 Examples.stW Examples.leave0 0 0).state.peers.lookup "me"
      = Examples.stW.peers.lookup "me" :=
  ⟨((leave_frame_effect Examples.host0 Examples.stW Examples.leave0 0 0 rfl).2
      Examples.recP (by decide)).1,
   ((leave_frame_effect Examples.host0 Examples.stW Examples.leave0 0 0 rfl).2
      Examples.recP (by decide)).2.1 "me" (by decide)⟩

/-! ### Claim C8 -/

/-- C8: `cleanupStalePeers` removes exactly the records with
    `now - lastSeen > PEER_TIMEOUT`: afterwards an id maps to a record
    exactly when it did before and that record's `lastSeen` is within
    `PEER_TIMEOUT` of `now`, and the returned count is the number of records
    removed. -/
theorem cleanup_stale_exact :
    ∀ (pm : Peers.PeerManager) (now : Int), (pm.seenPeers.map Prod.fst).Nodup →
      (∀ (id : String) (r : Server.PeerRec),
        (Peers.cleanupStalePeers pm now).1.seenPeers.lookup id = some r ↔
          (pm.seenPeers.lookup id = some r ∧ now - r.lastSeen ≤ Constants.PEER_TIMEOUT)) ∧
      (Peers.cleanupStalePeers pm now).2 =
        pm.seenPeers.length - (Peers.cleanupStalePeers pm now).1.seenPeers.length := by
  intro pm now hnd
  unfold Peers.cleanupStalePeers
  dsimp only
  constructor
  · intro id r
    rw [lookup_filter_iff_nodup _ _ hnd]
    constructor
    · intro ⟨h1, h2⟩
      refine ⟨h1, ?_⟩
      have h3 : ¬ Constants.PEER_TIMEOUT < now - r.lastSeen := by simpa using h2
      omega
    · intro ⟨h1, h2⟩
      refine ⟨h1, ?_⟩
      simp only [decide_eq_true_eq]
      show ¬ Constants.PEER_TIMEOUT < now - r.lastSeen
      omega
  · have hpart := length_filter_add_length_filter_not
      (fun p : String × Server.PeerRec => decide (Constants.PEER_TIMEOUT < now - p.2.lastSeen))
      pm.seenPeers
    have hsame : pm.seenPeers.filter
        (fun p : String × Server.PeerRec => !(decide (Constants.PEER_TIMEOUT < now - p.2.lastSeen)))
        = pm.seenPeers.filter
        (fun p : String × Server.PeerRec => decide (¬ Constants.PEER_TIMEOUT < now - p.2.lastSeen)) := by
      apply List.filter_congr
      intro x _
      exact decide_not.symm
    rw [hsame] at hpart
    omega

/-- Witness for C8: a two-record registry at `now = 20000` keeps the fresh
    record, drops the stale one, and reports one removal. -/
theorem cleanup_stale_exact_witness :
    ((Peers.cleanupStalePeers ⟨[("a", ⟨1, 0, false, none⟩), ("b", ⟨2, 19000, false, none⟩)], 0⟩
        20000).1.seenPeers.lookup "b" = some ⟨2, 19000, false, none⟩ ↔
      (([("a", (⟨1, 0, false, none⟩ : Server.PeerRec)), ("b", ⟨2, 19000, false, none⟩)].lookup "b"
          = some (⟨2, 19000, false, none⟩ : Server.PeerRec)) ∧
        (20000 : Int) - 19000 ≤ Constants.PEER_TIMEOUT)) ∧
    (Peers.cleanupStalePeers ⟨[("a", ⟨1, 0, false, none⟩), ("b", ⟨2, 19000, false, none⟩)], 0⟩
        20000).2 = 2 - (Peers.cleanupStalePeers
          ⟨[("a", ⟨1, 0, false, none⟩), ("b", ⟨2, 19000, false, none⟩)], 0⟩
          20000).1.seenPeers.length :=
  ⟨(cleanup_stale_exact ⟨[("a", ⟨1, 0, false, none⟩), ("b", ⟨2, 19000, false, none⟩)], 0⟩
      20000 (by decide)).1 "b" ⟨2, 19000, false, none⟩,
   (cleanup_stale_exact ⟨[("a", ⟨1, 0, false, none⟩), ("b", ⟨2, 19000, false, none⟩)], 0⟩
      20000 (by decide)).2⟩

/-! ### Claim C9 -/

/-- C9: a non-forced `broadcastUpdate` arriving strictly less than
    `BROADCAST_THROTTLE` after the last delivered broadcast writes nothing
    and leaves `lastBroadcast` unchanged; a forced call always stamps
    `lastBroadcast` and writes the SSE frame to every connected client. -/
theorem sse_broadcast_throttle :
    ∀ (m : SSE.SSEManager) (dataStr : String) (force : Bool) (now : Int),
      (force = false → now - m.lastBroadcast < Constants.BROADCAST_THROTTLE →
        SSE.broadcastUpdate m dataStr force now = (m, [])) ∧
      (force = true →
        (SSE.broadcastUpdate m dataStr force now).1.lastBroadcast = now ∧
        (SSE.broadcastUpdate m dataStr force now).2 =
          m.clients.map (fun c => (c, "data: " ++ dataStr ++ "\n\n"))) := by
  intro m dataStr force now
  constructor
  · intro hf hlt
    unfold SSE.broadcastUpdate
    rw [if_pos ⟨hf, hlt⟩]
  · intro hf
    unfold SSE.broadcastUpdate
    rw [if_neg (by simp [hf])]
    exact ⟨rfl, rfl⟩

/-- Witness for C9: concrete throttled and forced calls. -/
theorem sse_broadcast_throttle_witness :
    SSE.broadcastUpdate ⟨[7], 0⟩ "x" false 500 = (⟨[7], 0⟩, []) ∧
    (SSE.broadcastUpdate ⟨[7], 0⟩ "x" true 500).1.lastBroadcast = 500 ∧
    (SSE.broadcastUpdate ⟨[7], 0⟩ "x" true 500).2 =
      ([7] : List Nat).map (fun c => (c, "data: " ++ "x" ++ "\n\n")) :=
  ⟨(sse_broadcast_throttle ⟨[7], 0⟩ "x" false 500).1 rfl
     (by norm_num [Constants.BROADCAST_THROTTLE]),
   (sse_broadcast_throttle ⟨[7], 0⟩ "x" true 500).2 rfl⟩

/-! ### Claim C10 -/

/-- C10: `relayMessage` adds `data.length * (connections.size - 1)` to the
    `bytesRelayed` counter while writing the serialized message to every
    connection that is not the source socket; consequently the counter
    matches the bytes actually written exactly when the source socket is a
    member of the connection set, and a call whose source socket is not in
    the set (for example `null`) writes to all connections but counts one
    message fewer than it wrote. -/
theorem relay_bytes_accounting :
    ∀ (stringify : Server.Msg → String) (msg : Server.Msg) (src : Option Nat)
      (conns : List Nat) (diag : Relay.Diagnostics), conns.Nodup →
      (Relay.relayMessage stringify msg src conns diag).1.bytesRelayed - diag.bytesRelayed =
        ((stringify msg ++ "\n").length : Int) * ((conns.length : Int) - 1) ∧
      (Relay.relayMessage stringify msg src conns diag).2 =
        (conns.filter (fun s => some s ≠ src)).map (fun s => (s, stringify msg ++ "\n")) ∧
      ((Relay.relayMessage stringify msg src conns diag).1.bytesRelayed - diag.bytesRelayed =
          ((stringify msg ++ "\n").length : Int) *
            (((Relay.relayMessage stringify msg src conns diag).2.length : Int)) ↔
        (∃ s, src = some s ∧ s ∈ conns)) ∧
      ((∀ s, src = some s → s ∉ conns) →
        (Relay.relayMessage stringify msg src conns diag).2.length = conns.length ∧
        (Relay.relayMessage stringify msg src conns diag).1.bytesRelayed - diag.bytesRelayed =
          ((stringify msg ++ "\n").length : Int) * (conns.length : Int) -
            ((stringify msg ++ "\n").length : Int)) := by
  intro stringify msg src conns diag hnd
  have hlen1 : ("\n" : String).length = 1 := rfl
  have hlen2 : (stringify msg ++ "\n").length = (stringify msg).length + 1 := by
    rw [String.length_append, hlen1]
  have hlen : 0 < ((stringify msg ++ "\n").length : Int) := by omega
  unfold Relay.relayMessage
  dsimp only
  refine ⟨by ring, rfl, ?_, ?_⟩
  · rw [List.length_map]
    constructor
    · intro heq
      by_contra hno
      push_neg at hno
      have hall : conns.filter (fun s => some s ≠ src) = conns := by
        apply List.filter_eq_self.mpr
        intro s hs
        simp only [ne_eq, decide_eq_true_eq]
        intro hss
        exact hno s hss.symm hs
      rw [hall] at heq
      have : ((stringify msg ++ "\n").length : Int) * ((conns.length : Int) - 1) ≠
          ((stringify msg ++ "\n").length : Int) * (conns.length : Int) := by
        intro hcontra
        have := mul_left_cancel₀ (by omega : ((stringify msg ++ "\n").length : Int) ≠ 0) hcontra
        omega
      have heq2 : diag.bytesRelayed +
          ((stringify msg ++ "\n").length : Int) * ((conns.length : Int) - 1) - diag.bytesRelayed =
          ((stringify msg ++ "\n").length : Int) * ((conns.length : Int) - 1) := by ring
      rw [heq2] at heq
      exact this heq
    · intro ⟨s, hsrc, hmem⟩
      subst hsrc
      have hfe : conns.filter (fun x => some x ≠ some s) = conns.filter (fun x => x != s) := by
        apply List.filter_congr
        intro x _
        by_cases hxs : x = s
        · subst hxs
          simp
        · simp [hxs]
      rw [hfe, ← List.Nodup.erase_eq_filter hnd s, List.length_erase_of_mem hmem]
      have h1 : 1 ≤ conns.length := List.length_pos.mpr (by
        intro hnil
        rw [hnil] at hmem
        exact absurd hmem (by simp))
      have hcast : ((conns.length - 1 : Nat) : Int) = (conns.length : Int) - 1 := by omega
      rw [hcast]
      ring
  · intro hno
    have hall : conns.filter (fun s => some s ≠ src) = conns := by
      apply List.filter_eq_self.mpr
      intro s hs
      simp only [ne_eq, decide_eq_true_eq]
      intro hss
      exact hno s hss.symm hs
    rw [hall, List.length_map]
    constructor
    · rfl
    · ring

/-- Witness for C10: two connections, the source not among them. -/
theorem relay_bytes_accounting_witness :
    ((Relay.relayMessage (fun _ => "m") Examples.leave0 none [4, 5] ⟨0⟩).1.bytesRelayed - (0 : Int) =
      ((("m" ++ "\n").length : Int)) * ((2 : Int) - 1)) ∧
    ((∀ s, (none : Option Nat) = some s → s ∉ [4, 5]) →
      (Relay.relayMessage (fun _ => "m") Examples.leave0 none [4, 5] ⟨0⟩).2.length = 2) :=
  ⟨((relay_bytes_accounting (fun _ => "m") Examples.leave0 none [4, 5] ⟨0⟩ (by decide)).1),
   fun hno => ((relay_bytes_accounting (fun _ => "m") Examples.leave0 none [4, 5] ⟨0⟩
     (by decide)).2.2.2 hno).1⟩

/-! ### Claim C5 -/

/-- C5 counterexample: from the startup state, handling an inbound LEAVE
    naming the local id (LEAVE carries no signature, so any peer can emit
    one) deletes the node's own record, violating invariant (I3). -/
theorem leave_for_self_deletes_own_record :
    Server.SelfInv (Server.initState "me" 0) ∧
    ¬ Server.SelfInv
        (Server.handleMessage Examples.host0 (Server.initState "me" 0)
          Examples.leaveMe 0 0).state := by
  constructor
  · exact ⟨⟨0, 0, false, none⟩, by decide, rfl⟩
  · rintro ⟨r, hr, -⟩
    have hnone : (Server.handleMessage Examples.host0 (Server.initState "me" 0)
        Examples.leaveMe 0 0).state.peers.lookup
        (Server.handleMessage Examples.host0 (Server.initState "me" 0)
          Examples.leaveMe 0 0).state.myId = none := by decide
    rw [hnone] at hr
    exact Option.noConfusion hr

/-- C5 (amended): the self-record invariant — the registry holds the local
    id with `seq` equal to the local counter — holds at startup and is
    preserved by every transition except an inbound LEAVE naming the local
    id: inbound HEARTBEAT handling preserves it whenever the signature
    oracle is sound for the local key (no forged `"seq:" + s` signature with
    `s` beyond the local counter verifies), and the heartbeat tick, socket
    close and new-connection transitions preserve it unconditionally
    (socket close uses the companion invariant that no socket is pinned to
    the local id, which is itself preserved). -/
theorem self_record_invariant :
    (∀ (myId : String) (now : Int),
       Server.SelfInv (Server.initState myId now) ∧
       Server.NoSelfPin (Server.initState myId now)) ∧
    (∀ (h : Server.Host) (st : Server.NodeState) (msg : Server.Msg) (src : Nat) (now : Int),
       Server.SelfInv st → Server.NoSelfPin st → Server.SoundForSelf h st →
       (msg.type = "LEAVE" → msg.id ≠ st.myId) →
       Server.SelfInv (Server.handleMessage h st msg src now).state ∧
       Server.NoSelfPin (Server.handleMessage h st msg src now).state) ∧
    (∀ (st : Server.NodeState) (now : Int) (myLoc : Option Server.Loc),
       Server.SelfInv st → Server.NoSelfPin st →
       Server.SelfInv (Server.tick st now myLoc) ∧
       Server.NoSelfPin (Server.tick st now myLoc)) ∧
    (∀ (st : Server.NodeState) (sock : Nat),
       Server.SelfInv st → Server.NoSelfPin st →
       Server.SelfInv (Server.socketClose st sock) ∧
       Server.NoSelfPin (Server.socketClose st sock)) ∧
    (∀ (st : Server.NodeState) (sock : Nat),
       Server.SelfInv st → Server.NoSelfPin st →
       Server.SelfInv (Server.connOpen st sock) ∧
       Server.NoSelfPin (Server.connOpen st sock)) := by
  refine ⟨?_, ?_, ?_, ?_, ?_⟩
  · intro myId now
    constructor
    · refine ⟨⟨0, now, false, none⟩, ?_, rfl⟩
      unfold Server.initState
      dsimp only
      rw [List.lookup_cons]
      simp
    · intro s pid hpid
      unfold Server.initState at hpid
      dsimp only at hpid
      exact absurd hpid (by simp)
  · intro h st msg src now hSelf hPin hSound hLeave
    rcases handleMessage_shape h st msg src now with hN | ⟨hhb, _, hc, hsig, hE⟩ | ⟨hl, _, hE⟩
    · rw [hN]
      exact ⟨hSelf, hPin⟩
    · have hid : msg.id ≠ st.myId := by
        intro hidq
        obtain ⟨rs, hrs, hseq⟩ := hSelf
        rcases hc with hnone | ⟨r₀, hr₀, hlt⟩
        · rw [hidq, hrs] at hnone
          exact Option.noConfusion hnone
        · rw [hidq, hrs] at hr₀
          have hr0 : rs = r₀ := by
            injection hr₀
          have hle := hSound msg.seq msg.sig (by rw [← hidq]; exact hsig)
          rw [← hr0] at hlt
          omega
      rw [hE]
      constructor
      · obtain ⟨rs, hrs, hseq⟩ := hSelf
        refine ⟨rs, ?_, hseq⟩
        dsimp only
        rw [lookup_mapSet, if_neg (fun hq => hid hq.symm)]
        exact hrs
      · intro s pid hpid
        dsimp only at hpid ⊢
        by_cases h0 : msg.hops = 0
        · rw [if_pos h0, lookup_mapSet] at hpid
          by_cases hs : s = src
          · rw [if_pos hs] at hpid
            have : msg.id = pid := by injection hpid
            rw [← this]
            exact hid
          · rw [if_neg hs] at hpid
            exact hPin s pid hpid
        · rw [if_neg h0] at hpid
          exact hPin s pid hpid
    · have hid : msg.id ≠ st.myId := hLeave hl
      rw [hE]
      constructor
      · obtain ⟨rs, hrs, hseq⟩ := hSelf
        refine ⟨rs, ?_, hseq⟩
        dsimp only
        rw [lookup_mapDelete, if_neg (fun hq => hid hq.symm)]
        exact hrs
      · intro s pid hpid
        dsimp only at hpid ⊢
        exact hPin s pid hpid
  · intro st now myLoc hSelf hPin
    constructor
    · refine ⟨⟨st.mySeq + 1, now, false, myLoc⟩, ?_, rfl⟩
      unfold Server.tick
      dsimp only
      apply lookup_filter_of_lookup
      · rw [lookup_mapSet, if_pos rfl]
      · simp only [decide_eq_true_eq]
        omega
    · intro s pid hpid
      unfold Server.tick at hpid ⊢
      dsimp only at hpid ⊢
      exact hPin s pid hpid
  · intro st sock hSelf hPin
    unfold Server.socketClose
    cases hsp : st.sockPeer.lookup sock with
    | none =>
      dsimp only
      constructor
      · exact hSelf
      · intro s pid hpid
        dsimp only at hpid
        rw [lookup_mapDelete] at hpid
        by_cases hs : s = sock
        · rw [if_pos hs] at hpid
          exact Option.noConfusion hpid
        · rw [if_neg hs] at hpid
          exact hPin s pid hpid
    | some pid0 =>
      have hpid0 : pid0 ≠ st.myId := hPin sock pid0 hsp
      dsimp only
      by_cases hin : (st.peers.lookup pid0).isSome
      · rw [if_pos hin]
        constructor
        · obtain ⟨rs, hrs, hseq⟩ := hSelf
          refine ⟨rs, ?_, hseq⟩
          dsimp only
          rw [lookup_mapDelete, if_neg (fun hq => hpid0 hq.symm)]
          exact hrs
        · intro s pid hpid
          dsimp only at hpid ⊢
          rw [lookup_mapDelete] at hpid
          by_cases hs : s = sock
          · rw [if_pos hs] at hpid
            exact Option.noConfusion hpid
          · rw [if_neg hs] at hpid
            exact hPin s pid hpid
      · rw [if_neg hin]
        constructor
        · exact hSelf
        · intro s pid hpid
          dsimp only at hpid ⊢
          rw [lookup_mapDelete] at hpid
          by_cases hs : s = sock
          · rw [if_pos hs] at hpid
            exact Option.noConfusion hpid
          · rw [if_neg hs] at hpid
            exact hPin s pid hpid
  · intro st sock hSelf hPin
    unfold Server.connOpen
    exact ⟨hSelf, hPin⟩

/-- Witness for the amended C5 theorem: the startup invariant, and
    preservation across a concrete inbound heartbeat under the
    always-rejecting host (vacuously sound for the local key). -/
theorem self_record_invariant_witness :
    (Server.SelfInv (Server.initState "w" 5) ∧ Server.NoSelfPin (Server.initState "w" 5)) ∧
    (Server.SelfInv (Server.handleMessage Examples.host0 (Server.initState "me" 0)
        Examples.hbA5 0 0).state ∧
     Server.NoSelfPin (Server.handleMessage Examples.host0 (Server.initState "me" 0)
        Examples.hbA5 0 0).state) :=
  ⟨self_record_invariant.1 "w" 5,
   self_record_invariant.2.1 Examples.host0 (Server.initState "me" 0) Examples.hbA5 0 0
     (self_record_invariant.1 "me" 0).1 (self_record_invariant.1 "me" 0).2
     (fun s sg hq => absurd hq (by simp [Examples.host0]))
     (fun hq => absurd hq (by decide))⟩

/-! ### Claim C6 -/

theorem getD_drop {α : Type} (l : List α) (m n : Nat) (d : α) :
    (l.drop m).getD n d = l.getD (m + n) d := by
  induction m generalizing l with
  | zero => simp
  | succ m ih =>
    cases l with
    | nil => simp [List.getD]
    | cons a t =>
      rw [Nat.succ_add]
      exact ih t

theorem getD_bound (l : List Nat) (hb : ∀ b ∈ l, b < 256) (i : Nat) : l.getD i 0 < 256 := by
  induction l generalizing i with
  | nil => simp [List.getD]
  | cons a t ih =>
    cases i with
    | zero => exact hb a (by simp)
    | succ j => exact ih (fun b hm => hb b (by simp [hm])) j

theorem word_pack (b0 b1 b2 b3 : Nat) (_h0 : b0 < 256) (h1 : b1 < 256) (h2 : b2 < 256)
    (h3 : b3 < 256) :
    (b0 <<< 24) ||| (b1 <<< 16) ||| (b2 <<< 8) ||| b3 =
      b0 * 16777216 + b1 * 65536 + b2 * 256 + b3 := by
  have e0 : b0 <<< 24 = 2 ^ 24 * b0 := by
    rw [Nat.shiftLeft_eq]
    ring
  have e1 : b1 <<< 16 = 2 ^ 16 * b1 := by
    rw [Nat.shiftLeft_eq]
    ring
  have e2 : b2 <<< 8 = 2 ^ 8 * b2 := by
    rw [Nat.shiftLeft_eq]
    ring
  have s1 : 2 ^ 8 * b2 + b3 = 2 ^ 8 * b2 ||| b3 :=
    Nat.mul_add_lt_is_or (by norm_num; omega) b2
  have hb23 : 2 ^ 8 * b2 ||| b3 < 2 ^ 16 := by
    rw [← s1]
    norm_num
    omega
  have s2 : 2 ^ 16 * b1 + (2 ^ 8 * b2 ||| b3) = 2 ^ 16 * b1 ||| (2 ^ 8 * b2 ||| b3) :=
    Nat.mul_add_lt_is_or hb23 b1
  have hb123 : 2 ^ 16 * b1 ||| (2 ^ 8 * b2 ||| b3) < 2 ^ 24 := by
    rw [← s2, ← s1]
    norm_num
    omega
  have s3 : 2 ^ 24 * b0 + (2 ^ 16 * b1 ||| (2 ^ 8 * b2 ||| b3)) =
      2 ^ 24 * b0 ||| (2 ^ 16 * b1 ||| (2 ^ 8 * b2 ||| b3)) :=
    Nat.mul_add_lt_is_or hb123 b0
  calc (b0 <<< 24) ||| (b1 <<< 16) ||| (b2 <<< 8) ||| b3
      = 2 ^ 24 * b0 ||| (2 ^ 16 * b1 ||| (2 ^ 8 * b2 ||| b3)) := by
        rw [e0, e1, e2, Nat.lor_assoc, Nat.lor_assoc]
    _ = 2 ^ 24 * b0 + (2 ^ 16 * b1 + (2 ^ 8 * b2 + b3)) := by
        rw [← s3, ← s2, ← s1]
    _ = b0 * 16777216 + b1 * 65536 + b2 * 256 + b3 := by ring

theorem readUInt32BE_eq_specWord (key : List Nat) (off : Nat) (hb : ∀ b ∈ key, b < 256) :
    Feistel.readUInt32BE key off = FeistelSpec.specWord key off := by
  unfold Feistel.readUInt32BE wordBE FeistelSpec.specWord
  rw [getD_drop, getD_drop, getD_drop, getD_drop]
  rw [word_pack _ _ _ _ (getD_bound key hb _) (getD_bound key hb _) (getD_bound key hb _)
      (getD_bound key hb _)]
  norm_num

theorem feistelMix_eq_specMix (x : Nat) (key : List Nat) (hb : ∀ b ∈ key, b < 256) :
    Feistel.feistelMix x key = FeistelSpec.specMix x key := by
  unfold Feistel.feistelMix FeistelSpec.specMix
  rw [readUInt32BE_eq_specWord key 0 hb, readUInt32BE_eq_specWord key 4 hb]

/-- C6: one Feistel round of the code coincides with the spec's reference
    round on every 32-bit address and 8-byte key, and the code's round keys
    are exactly the spec's in-order split of the 32-byte HKDF-SHA-256 output
    with info "feistel-ipv4-scan". -/
theorem feistel_round_matches_spec :
    (∀ (addr : Nat) (key : List Nat), addr < 4294967296 → (∀ b ∈ key, b < 256) →
       Feistel.feistelRound addr key = FeistelSpec.specRound addr key) ∧
    (∀ seed : Nat, Feistel.deriveRoundKeys seed = FeistelSpec.specRoundKeys seed) := by
  constructor
  · intro addr key haddr hb
    unfold Feistel.feistelRound FeistelSpec.specRound
    dsimp only
    have h65535 : (65535 : Nat) = 2 ^ 16 - 1 := by norm_num
    have h65536 : (65536 : Nat) = 2 ^ 16 := by norm_num
    have hright : addr &&& 65535 = addr % 65536 := by
      rw [h65535, h65536, Nat.and_pow_two_sub_one_eq_mod]
    have hdivlt : addr / 65536 < 2 ^ 16 := by
      apply Nat.div_lt_of_lt_mul
      norm_num
      omega
    have hleft : (addr >>> 16) &&& 65535 = addr / 65536 := by
      rw [Nat.shiftRight_eq_div_pow, h65535]
      rw [Nat.and_pow_two_sub_one_of_lt_two_pow (by norm_num at hdivlt ⊢; omega)]
    have hrlt : addr % 65536 < 2 ^ 16 := by
      norm_num
      exact Nat.mod_lt _ (by norm_num)
    have hexp : ((addr % 65536) ||| ((addr % 65536) <<< 16)) % 4294967296 =
        (addr % 65536) * 65536 + (addr % 65536) := by
      rw [Nat.shiftLeft_eq, Nat.lor_comm]
      have hsum : 2 ^ 16 * (addr % 65536) + (addr % 65536) =
          2 ^ 16 * (addr % 65536) ||| (addr % 65536) :=
        Nat.mul_add_lt_is_or hrlt _
      rw [show (addr % 65536) * 2 ^ 16 = 2 ^ 16 * (addr % 65536) from by ring, ← hsum]
      rw [Nat.mod_eq_of_lt (by norm_num; omega)]
      ring
    rw [hright, hleft, hexp, feistelMix_eq_specMix _ key hb]
    have hm16 : FeistelSpec.specMix ((addr % 65536) * 65536 + (addr % 65536)) key &&& 65535 =
        FeistelSpec.specMix ((addr % 65536) * 65536 + (addr % 65536)) key % 65536 := by
      rw [h65535, h65536, Nat.and_pow_two_sub_one_eq_mod]
    rw [hm16]
    have hxlt : (addr % 65536) ^^^
        (FeistelSpec.specMix ((addr % 65536) * 65536 + (addr % 65536)) key % 65536) < 2 ^ 16 := by
      apply Nat.xor_lt_two_pow hrlt
      norm_num
      exact Nat.mod_lt _ (by norm_num)
    have hnl : ((addr % 65536) ^^^
        (FeistelSpec.specMix ((addr % 65536) * 65536 + (addr % 65536)) key % 65536)) &&& 65535 =
        (addr % 65536) ^^^
        (FeistelSpec.specMix ((addr % 65536) * 65536 + (addr % 65536)) key % 65536) := by
      rw [h65535]
      exact Nat.and_pow_two_sub_one_of_lt_two_pow hxlt
    rw [hnl]
    rw [Nat.shiftLeft_eq]
    set nl := (addr % 65536) ^^^
      (FeistelSpec.specMix ((addr % 65536) * 65536 + (addr % 65536)) key % 65536) with hnldef
    have hpack : nl * 2 ^ 16 ||| addr / 65536 = nl * 65536 + addr / 65536 := by
      rw [show nl * 2 ^ 16 = 2 ^ 16 * nl from by ring]
      rw [← Nat.mul_add_lt_is_or hdivlt nl]
      ring
    rw [hpack, Nat.mod_eq_of_lt]
    norm_num at hxlt hdivlt ⊢
    omega
  · intro seed
    unfold Feistel.deriveRoundKeys FeistelSpec.specRoundKeys
    dsimp only
    simp [List.drop_take]

/-- Witness for C6 at a concrete address and key. -/
theorem feistel_round_matches_spec_witness :
    Feistel.feistelRound 305419896 [1, 2, 3, 4, 5, 6, 7, 8] =
      FeistelSpec.specRound 305419896 [1, 2, 3, 4, 5, 6, 7, 8] ∧
    Feistel.deriveRoundKeys 7 = FeistelSpec.specRoundKeys 7 :=
  ⟨feistel_round_matches_spec.1 305419896 [1, 2, 3, 4, 5, 6, 7, 8] (by norm_num)
     (by intro b hbm; fin_cases hbm <;> norm_num),
   feistel_round_matches_spec.2 7⟩

/-! ### Claim C1 -/

set_option maxRecDepth 1000000 in
/-- C1: the counter-to-address map is not a bijection. With seed 1, the
    generator emits the same address 2050527389 for the counter values 1 and
    256, and its `next()` reports `done` once the counter reaches
    `0xFFFFFFFF`, so that counter's image is never emitted: over a full
    cycle some 32-bit addresses repeat and others never appear. -/
theorem feistel_generator_collision :
    (Feistel.next 1 1).1 = some 2050527389 ∧
    (Feistel.next 1 256).1 = some 2050527389 ∧
    (Feistel.next 1 4294967295).1 = none := by
  refine ⟨?_, ?_, ?_⟩
  · decide
  · decide
  · decide

end Hypermind